import Mathlib

set_option allowUnsafeReducibility true in
attribute [semireducible] Rat.add Rat.sub Rat.neg Rat.mul Rat.inv Rat.ofScientific

/-!
Verification of the decline-rebound signal detector of the `stock_timing`
repository against its natural-language specification.

The embedding translates the Python sources into Lean:

* `src/backtest/indicators.py` : true range, relative ATR, the ATR correction
  factor and the adjusted thresholds;
* `src/factors/decline_rebound.py` : `_trace_decline_trend`,
  `_has_signal_between` and `generate_signals`;
* `src/metrics/strategy1_definitions.py` : the near-duplicate
  `Strategy1Definitions` implementation.

Prices and ATR values are modelled as rationals (`ℚ`); a pandas `NaN` entry is
modelled as `Option.none`.  The thresholds computed by the source are
`base * sqrt(corr)` for a rational `corr`; comparisons against such a
threshold are implemented by the equivalent decidable rational comparison on
squares (the function `corrSq` returns the square of the correction factor)
and proved equivalent to the real-number comparison against
`get_adjusted_thresholds` in the bridge lemmas `reboundHit_iff_real` and
`declineHit_iff_real` below.  Exceptions raised by the Python code are
modelled with `Except String`.
-/

/-- Square of the ATR correction factor of
`backtest/indicators.py::get_atr_correction_factor`:
the source returns `sqrt(atr/0.01)` for `atr < 0.01`, `sqrt(atr/0.02)` for
`atr > 0.02` and `1.0` otherwise; this function returns the radicand
(the square of that value), which is rational and keeps every
threshold comparison decidable. -/
def corrSq (atr : ℚ) : ℚ :=
  if atr < 0.01 then atr / 0.01
  else if atr > 0.02 then atr / 0.02
  else 1

/-- Decidable form of the source comparison
`daily_return >= rebound_threshold` where
`rebound_threshold = 0.005 * sqrt(corrSq atr)` is the second component of
`get_adjusted_thresholds(atr)`.  For `0 ≤ atr` this equals the real
comparison (lemma `reboundHit_iff_real`). -/
def reboundHit (atr r : ℚ) : Bool :=
  decide (0 ≤ r) && decide (0.005 ^ 2 * corrSq atr ≤ r ^ 2)

/-- Decidable form of the source comparison
`total_decline <= decline_threshold` where
`decline_threshold = -0.05 * sqrt(corrSq atr)` is the first component of
`get_adjusted_thresholds(atr)`.  For `0 ≤ atr` this equals the real
comparison (lemma `declineHit_iff_real`). -/
def declineHit (atr t : ℚ) : Bool :=
  decide (t ≤ 0) && decide (0.05 ^ 2 * corrSq atr ≤ t ^ 2)

/-- Result record of `_trace_decline_trend` (the `TrendResult` named tuple of
`factors/decline_rebound.py`). -/
structure TrendResult where
  is_valid : Bool
  ends_today : Bool
  bottom_price : ℚ
  bottom_idx : ℕ
  high_price : ℚ
  high_idx : ℕ
deriving DecidableEq, Repr

/-- Day `i`'s daily return `(close[i] - close[i-1]) / close[i-1]` as computed
inside `_trace_decline_trend`. -/
def dailyReturn (close : ℕ → ℚ) (i : ℕ) : ℚ :=
  (close i - close (i - 1)) / close (i - 1)

/-- Day `i` terminates a trend: its ATR is present (`pd.isna` is false) and
the daily return reaches that day's rebound threshold.  This is the
termination test of the loop body of `_trace_decline_trend`. -/
def hitB (close : ℕ → ℚ) (atr : ℕ → Option ℚ) (i : ℕ) : Bool :=
  match atr i with
  | none => false
  | some a => reboundHit a (dailyReturn close i)

/-- Loop of `_trace_decline_trend`: scan days `i, i+1, …` (`m` days in all,
so days `i … i+m-1`), updating the running bottom `(bp, bi)` before testing
whether the day terminates the trend, exactly as the Python `for` loop over
`range(high_idx+1, current_idx+1)` does. -/
def traceGo (close : ℕ → ℚ) (atr : ℕ → Option ℚ) (hp : ℚ) (hi cur : ℕ) :
    ℕ → ℕ → ℚ → ℕ → TrendResult
  | _, 0, _, _ => ⟨false, false, 0, 0, 0, 0⟩
  | i, m + 1, bp, bi =>
    let cp := close i
    let bp' := if cp < bp then cp else bp
    let bi' := if cp < bp then i else bi
    if hitB close atr i then
      if 0 ≤ (bp' - hp) / hp then ⟨false, false, 0, 0, 0, 0⟩
      else ⟨true, i == cur, bp', bi', hp, hi⟩
    else traceGo close atr hp hi cur (i + 1) m bp' bi'

/-- Embedding of `_trace_decline_trend` from `factors/decline_rebound.py`
(the unused `current_rebound_threshold` parameter of the source is omitted:
the function recomputes each day's threshold from that day's ATR). -/
def trace_decline_trend (close : ℕ → ℚ) (atr : ℕ → Option ℚ)
    (high_idx current_idx : ℕ) : TrendResult :=
  if current_idx ≤ high_idx then ⟨false, false, 0, 0, 0, 0⟩
  else
    traceGo close atr (close high_idx) high_idx current_idx
      (high_idx + 1) (current_idx - high_idx) (close high_idx) high_idx

/-- First day among `i … i+m-1` whose termination test fires; `none` when the
scan is exhausted.  Specification-side companion of `traceGo`. -/
def terminationDay (close : ℕ → ℚ) (atr : ℕ → Option ℚ) : ℕ → ℕ → Option ℕ
  | _, 0 => none
  | i, m + 1 => if hitB close atr i then some i else terminationDay close atr (i + 1) m

/-- Running-minimum fold over days `i … i+m-1`, the bottom-update part of the
loop of `_trace_decline_trend` in isolation. -/
def runMinGo (close : ℕ → ℚ) : ℕ → ℕ → ℚ × ℕ → ℚ × ℕ
  | _, 0, s => s
  | i, m + 1, (bp, bi) =>
    runMinGo close (i + 1) m (if close i < bp then (close i, i) else (bp, bi))

/-- Embedding of `_has_signal_between` from `factors/decline_rebound.py`:
some already-triggered signal index lies strictly between `high_idx` and
`current_idx`. -/
def has_signal_between (triggered : List ℕ) (high_idx current_idx : ℕ) : Bool :=
  triggered.any fun s => decide (high_idx < s) && decide (s < current_idx)

/-- One emitted signal: the evaluation index at which it fired together with
the accepted candidate high index (the source stores only `eval_idx` in
`triggered_signals`; the high index is recorded here so that the no-overlap
invariant can be stated). -/
structure Emission where
  eval_idx : ℕ
  high_idx : ℕ
deriving DecidableEq, Repr

/-- Inner candidate loop of `generate_signals`: try candidate highs
`h, h+1, …` (`k` of them) for evaluation day `i` with day-`i` ATR
`current_atr`, returning the first accepted emission, or `none`.  Mirrors the
`for high_candidate_idx in range(lookback_start, i)` loop with its `break`. -/
def findSignalGo (close : ℕ → ℚ) (atr : ℕ → Option ℚ) (i : ℕ) (current_atr : ℚ)
    (triggered : List ℕ) : ℕ → ℕ → Option Emission
  | _, 0 => none
  | h, k + 1 =>
    let tr := trace_decline_trend close atr h i
    if tr.is_valid && tr.ends_today then
      let total_decline := (tr.bottom_price - tr.high_price) / tr.high_price
      let rebound_from_bottom := (close i - tr.bottom_price) / tr.bottom_price
      let decline_ok := declineHit current_atr total_decline
      let rebound_ok := reboundHit current_atr rebound_from_bottom
      let no_signal_between := !has_signal_between triggered tr.high_idx i
      if decline_ok && rebound_ok && no_signal_between then some ⟨i, tr.high_idx⟩
      else findSignalGo close atr i current_atr triggered (h + 1) k
    else findSignalGo close atr i current_atr triggered (h + 1) k

/-- Outer driving loop of `generate_signals` over evaluation days
`i, i+1, …` (`m` of them): skip days with missing ATR, otherwise run the
candidate loop and append any accepted emission to the ordered log.  The
source's `triggered_signals` list is the projection `log.map (·.eval_idx)`. -/
def scanGo (close : ℕ → ℚ) (atr : ℕ → Option ℚ) (lookback : ℕ) :
    ℕ → ℕ → List Emission → List Emission
  | _, 0, log => log
  | i, m + 1, log =>
    match atr i with
    | none => scanGo close atr lookback (i + 1) m log
    | some current_atr =>
      let lookback_start := i - lookback
      match findSignalGo close atr i current_atr (log.map (·.eval_idx))
          lookback_start (i - lookback_start) with
      | none => scanGo close atr lookback (i + 1) m log
      | some em => scanGo close atr lookback (i + 1) m (log ++ [em])

/-- Full emission log of `generate_signals` on a length-`n` series: the scan
runs over evaluation days `lookback … n-1`. -/
def signalLog (close : ℕ → ℚ) (atr : ℕ → Option ℚ) (n lookback : ℕ) :
    List Emission :=
  scanGo close atr lookback lookback (n - lookback) []

/-- Boolean signal series of length `n` built from the emission log, the
`signals` series of the source (`signals.iloc[i] = True` exactly at emitted
evaluation indices). -/
def signalsFromLog (n : ℕ) (log : List Emission) : List Bool :=
  (List.range n).map fun t => log.any fun e => e.eval_idx == t

/-- Signal series of `generate_signals` once the close and ATR series are
fixed (`pd.Series.iloc` reads are modelled with `getD`; the loops only read
indices below the series length). -/
def signalsFromSeries (closeS : List ℚ) (atrS : List (Option ℚ))
    (lookback : ℕ) : List Bool :=
  signalsFromLog closeS.length
    (signalLog (fun i => closeS.getD i 0) (fun i => atrS.getD i none)
      closeS.length lookback)

/-- Input data frame of `generate_signals`: a column that is absent from the
frame is `none`; a present ATR column may contain `NaN` entries (`none`). -/
structure DataFrame where
  high : Option (List ℚ)
  low : Option (List ℚ)
  close : Option (List ℚ)
  atr60 : Option (List (Option ℚ))

/-- Embedding of `backtest/indicators.py::calculate_true_range`.  The source
raises on mismatched lengths; otherwise row `i` of the `hl/hc/lc` frame is
reduced with `max(axis=1)`, which skips `NaN`, so day 0 (whose `prev_close`
is `NaN`) yields `high[0] - low[0]`. -/
def calculate_true_range (high low close : List ℚ) :
    Except String (List ℚ) :=
  if high.length = low.length ∧ high.length = close.length then
    Except.ok <| (List.range high.length).map fun i =>
      if i = 0 then high.getD 0 0 - low.getD 0 0
      else
        max (high.getD i 0 - low.getD i 0)
          (max |high.getD i 0 - close.getD (i - 1) 0|
            |low.getD i 0 - close.getD (i - 1) 0|)
  else Except.error "price series lengths must be equal"

/-- Embedding of `backtest/indicators.py::calculate_atr`: simple moving
average of the true range with `rolling(window, min_periods=window)` (so
entry `i` is present exactly when `i + 1 ≥ window`), divided by the same-day
close. -/
def calculate_atr (high low close : List ℚ) (window : ℕ) :
    Except String (List (Option ℚ)) :=
  (calculate_true_range high low close).map fun tr =>
    (List.range tr.length).map fun i =>
      if window ≤ i + 1 then
        some ((((List.range' (i + 1 - window) window).map
          fun j => tr.getD j 0).sum / (window : ℚ)) / close.getD i 0)
      else none

/-- ATR series that `generate_signals` actually scans with: the `atr60`
column when present, otherwise `calculate_atr` over the price columns with
`window = 60`. -/
def effAtr (data : DataFrame) : Except String (List (Option ℚ)) :=
  match data.atr60 with
  | some a => Except.ok a
  | none =>
    match data.high, data.low, data.close with
    | some hS, some lS, some cS => calculate_atr hS lS cS 60
    | _, _, _ => Except.error "data must contain column: high, low, close"

/-- Embedding of `factors/decline_rebound.py::generate_signals`: validate
that the `high`, `low`, `close` columns are present, obtain the ATR series,
then run the scan.  Raised `ValueError`s are modelled as `Except.error`. -/
def generate_signals (data : DataFrame) (lookback_days : ℕ) :
    Except String (List Bool) :=
  match data.high, data.low, data.close with
  | none, _, _ => Except.error "data must contain column: high"
  | _, none, _ => Except.error "data must contain column: low"
  | _, _, none => Except.error "data must contain column: close"
  | some _, some _, some cS =>
    (effAtr data).map fun atrS => signalsFromSeries cS atrS lookback_days

/-- Embedding of `backtest/indicators.py::get_atr_correction_factor` on a
single defined value, with the real square root. -/
noncomputable def get_atr_correction_factor (atr : ℝ) : ℝ :=
  if atr < 0.01 then Real.sqrt (atr / 0.01)
  else if atr > 0.02 then Real.sqrt (atr / 0.02)
  else 1

/-- Embedding of `backtest/indicators.py::get_adjusted_thresholds` with the
base thresholds fixed at their defaults (`base_decline = -0.05`,
`base_rebound = 0.005`), the only values the repository uses. -/
noncomputable def get_adjusted_thresholds (atr : ℝ) : ℝ × ℝ :=
  (-0.05 * get_atr_correction_factor atr, 0.005 * get_atr_correction_factor atr)


/-- Ordering and no-overlap relation between two emissions of the log: the
earlier emission fired at a strictly smaller evaluation index, which does
not lie strictly inside the later emission's high-to-evaluation span. -/
def EmissionOrdered (e1 e2 : Emission) : Prop :=
  e1.eval_idx < e2.eval_idx ∧
    ¬(e2.high_idx < e1.eval_idx ∧ e1.eval_idx < e2.eval_idx)

/-- Real square root with the float semantics of `np.sqrt`: the square root
of a negative number is `NaN` (modelled as `none`). -/
noncomputable def sqrtF (x : ℚ) : Option ℝ :=
  if x < 0 then none else some (Real.sqrt (x : ℝ))

/-- Elementwise (`pd.Series`) branch of
`backtest/indicators.py::get_atr_correction_factor`: the output series is
initialized to all-`NaN` and filled through the three masks
`atr60 < 0.01`, `atr60 > 0.02` and `0.01 <= atr60 <= 0.02`; a `NaN` input
matches none of the masks, so its output entry stays `NaN`. -/
noncomputable def get_atr_correction_factor_series (atr60 : List (Option ℚ)) :
    List (Option ℝ) :=
  atr60.map fun v =>
    match v with
    | none => none
    | some a =>
      if a < 0.01 then sqrtF (a / 0.01)
      else if a > 0.02 then sqrtF (a / 0.02)
      else some 1

/-- Scalar branch of
`backtest/indicators.py::get_atr_correction_factor` including float `NaN`
semantics: both comparisons `atr60 < 0.01` and `atr60 > 0.02` are false on
`NaN`, so a `NaN` input falls through to the final `else` and returns
`1.0`. -/
noncomputable def get_atr_correction_factor_scalar (atr60 : Option ℚ) :
    Option ℝ :=
  match atr60 with
  | none => some 1
  | some a =>
    if a < 0.01 then sqrtF (a / 0.01)
    else if a > 0.02 then sqrtF (a / 0.02)
    else some 1

namespace Strategy1Definitions

/-- Modelled from the spec: `src/metrics/atr.py` (imported by
`metrics/strategy1_definitions.py` for `get_adjusted_thresholds`) is not in
the repository snapshot; spec section 4.1 specifies the identical
correction-factor formula as `backtest/indicators.py`, so its squared
correction factor is modelled identically to `corrSq`. -/
def corrSq (atr : ℚ) : ℚ :=
  if atr < 0.01 then atr / 0.01
  else if atr > 0.02 then atr / 0.02
  else 1

/-- Modelled from the spec: rebound-threshold comparison of the missing
`src/metrics/atr.py::get_adjusted_thresholds`, identical to the
`backtest/indicators.py` version. -/
def reboundHit (atr r : ℚ) : Bool :=
  decide (0 ≤ r) && decide (0.005 ^ 2 * Strategy1Definitions.corrSq atr ≤ r ^ 2)

/-- Modelled from the spec: decline-threshold comparison of the missing
`src/metrics/atr.py::get_adjusted_thresholds`, identical to the
`backtest/indicators.py` version. -/
def declineHit (atr t : ℚ) : Bool :=
  decide (t ≤ 0) && decide (0.05 ^ 2 * Strategy1Definitions.corrSq atr ≤ t ^ 2)

/-- Termination test of `Strategy1Definitions._trace_decline_trend`. -/
def hitB (close : ℕ → ℚ) (atr : ℕ → Option ℚ) (i : ℕ) : Bool :=
  match atr i with
  | none => false
  | some a => Strategy1Definitions.reboundHit a (dailyReturn close i)

/-- Loop of `Strategy1Definitions._trace_decline_trend` from
`metrics/strategy1_definitions.py`. -/
def traceGo (close : ℕ → ℚ) (atr : ℕ → Option ℚ) (hp : ℚ) (hi cur : ℕ) :
    ℕ → ℕ → ℚ → ℕ → TrendResult
  | _, 0, _, _ => ⟨false, false, 0, 0, 0, 0⟩
  | i, m + 1, bp, bi =>
    let cp := close i
    let bp' := if cp < bp then cp else bp
    let bi' := if cp < bp then i else bi
    if Strategy1Definitions.hitB close atr i then
      if 0 ≤ (bp' - hp) / hp then ⟨false, false, 0, 0, 0, 0⟩
      else ⟨true, i == cur, bp', bi', hp, hi⟩
    else Strategy1Definitions.traceGo close atr hp hi cur (i + 1) m bp' bi'

/-- Embedding of `Strategy1Definitions._trace_decline_trend`. -/
def trace_decline_trend (close : ℕ → ℚ) (atr : ℕ → Option ℚ)
    (high_idx current_idx : ℕ) : TrendResult :=
  if current_idx ≤ high_idx then ⟨false, false, 0, 0, 0, 0⟩
  else
    Strategy1Definitions.traceGo close atr (close high_idx) high_idx current_idx
      (high_idx + 1) (current_idx - high_idx) (close high_idx) high_idx

/-- Embedding of `Strategy1Definitions._has_signal_between`. -/
def has_signal_between (triggered : List ℕ) (high_idx current_idx : ℕ) : Bool :=
  triggered.any fun s => decide (high_idx < s) && decide (s < current_idx)

/-- Inner candidate loop of
`Strategy1Definitions.correct_decline_rebound_strategy`. -/
def findSignalGo (close : ℕ → ℚ) (atr : ℕ → Option ℚ) (i : ℕ) (current_atr : ℚ)
    (triggered : List ℕ) : ℕ → ℕ → Option Emission
  | _, 0 => none
  | h, k + 1 =>
    let tr := Strategy1Definitions.trace_decline_trend close atr h i
    if tr.is_valid && tr.ends_today then
      let total_decline := (tr.bottom_price - tr.high_price) / tr.high_price
      let rebound_from_bottom := (close i - tr.bottom_price) / tr.bottom_price
      let decline_ok := Strategy1Definitions.declineHit current_atr total_decline
      let rebound_ok := Strategy1Definitions.reboundHit current_atr rebound_from_bottom
      let no_signal_between :=
        !Strategy1Definitions.has_signal_between triggered tr.high_idx i
      if decline_ok && rebound_ok && no_signal_between then some ⟨i, tr.high_idx⟩
      else Strategy1Definitions.findSignalGo close atr i current_atr triggered (h + 1) k
    else Strategy1Definitions.findSignalGo close atr i current_atr triggered (h + 1) k

/-- Outer evaluation-day loop of
`Strategy1Definitions.correct_decline_rebound_strategy`. -/
def scanGo (close : ℕ → ℚ) (atr : ℕ → Option ℚ) (lookback : ℕ) :
    ℕ → ℕ → List Emission → List Emission
  | _, 0, log => log
  | i, m + 1, log =>
    match atr i with
    | none => Strategy1Definitions.scanGo close atr lookback (i + 1) m log
    | some current_atr =>
      let lookback_start := i - lookback
      match Strategy1Definitions.findSignalGo close atr i current_atr
          (log.map (·.eval_idx)) lookback_start (i - lookback_start) with
      | none => Strategy1Definitions.scanGo close atr lookback (i + 1) m log
      | some em => Strategy1Definitions.scanGo close atr lookback (i + 1) m (log ++ [em])

/-- Embedding of
`metrics/strategy1_definitions.py::Strategy1Definitions.correct_decline_rebound_strategy`,
together with the column validation done by the class constructor
(`close` and `atr60` are required). -/
def correct_decline_rebound_strategy (data : DataFrame) (lookback_days : ℕ) :
    Except String (List Bool) :=
  match data.close, data.atr60 with
  | none, _ => Except.error "data must contain column: close"
  | _, none => Except.error "data must contain column: atr60"
  | some cS, some aS =>
    Except.ok <| signalsFromLog cS.length
      (Strategy1Definitions.scanGo (fun i => cS.getD i 0) (fun i => aS.getD i none)
        lookback_days lookback_days (cS.length - lookback_days) [])

end Strategy1Definitions

/-- Close path of the spec's end-to-end example, as a function on day
indices. -/
def closeExample6 : ℕ → ℚ := fun i => [(100 : ℚ), 99, 98, 90, 91, 95].getD i 0

/-- Constant ATR series with value 0.015, inside the `[0.01, 0.02]` band, so
that the correction factor is exactly 1. -/
def atrExampleConst : ℕ → Option ℚ := fun _ => some 0.015

/-- Two copies of the end-to-end example pattern in sequence; the detector
emits two signals on it. -/
def closeExample10 : ℕ → ℚ :=
  fun i => [(100 : ℚ), 99, 98, 90, 91, 100, 99, 98, 90, 91].getD i 0

section TraceLemmas

variable (close : ℕ → ℚ) (atr : ℕ → Option ℚ)

/-- The first termination day lies in the scanned range and satisfies the
termination test. -/
theorem terminationDay_bounds :
    ∀ m i T, terminationDay close atr i m = some T →
      i ≤ T ∧ T < i + m ∧ hitB close atr T = true := by
  intro m
  induction m with
  | zero => intro i T h; simp [terminationDay] at h
  | succ m ih =>
    intro i T h
    rw [terminationDay] at h
    by_cases hh : hitB close atr i = true
    · simp [hh] at h
      exact ⟨le_of_eq h, by omega, h ▸ hh⟩
    · simp [hh] at h
      obtain ⟨h1, h2, h3⟩ := ih (i + 1) T h
      exact ⟨by omega, by omega, h3⟩

/-- Unrolling step of the running-minimum fold. -/
theorem runMinGo_succ (i m : ℕ) (bp : ℚ) (bi : ℕ) :
    runMinGo close i (m + 1) (bp, bi) =
      runMinGo close (i + 1) m (if close i < bp then (close i, i) else (bp, bi)) := by
  rw [runMinGo]

/-- Exhaustion case of the loop of `_trace_decline_trend`: with no
termination day among the scanned days, the loop returns the all-zero
invalid record. -/
theorem traceGo_exhaust (hp : ℚ) (hi cur : ℕ) :
    ∀ m i bp bi, terminationDay close atr i m = none →
      traceGo close atr hp hi cur i m bp bi = ⟨false, false, 0, 0, 0, 0⟩ := by
  intro m
  induction m with
  | zero => intro i bp bi _; rw [traceGo]
  | succ m ih =>
    intro i bp bi h
    rw [terminationDay] at h
    rw [traceGo]
    by_cases hh : hitB close atr i = true
    · simp [hh] at h
    · simp only [hh, Bool.false_eq_true, if_false] at h ⊢
      exact ih (i + 1) _ _ h

/-- Stop case of the loop of `_trace_decline_trend`: the loop stops at the
first termination day `T`; its result is built from the running bottom
folded over the scanned days up to and including `T`. -/
theorem traceGo_stop (hp : ℚ) (hi cur : ℕ) :
    ∀ m i bp bi T, terminationDay close atr i m = some T →
      traceGo close atr hp hi cur i m bp bi =
        (let s := runMinGo close i (T + 1 - i) (bp, bi)
         if 0 ≤ (s.1 - hp) / hp then ⟨false, false, 0, 0, 0, 0⟩
         else ⟨true, T == cur, s.1, s.2, hp, hi⟩) := by
  intro m
  induction m with
  | zero => intro i bp bi T h; simp [terminationDay] at h
  | succ m ih =>
    intro i bp bi T h
    rw [terminationDay] at h
    rw [traceGo]
    by_cases hh : hitB close atr i = true
    · simp only [hh, if_true] at h ⊢
      obtain rfl : i = T := by simpa using h
      have hrm : runMinGo close i 1 (bp, bi) =
          (if close i < bp then (close i, i) else (bp, bi)) := by
        rw [runMinGo_succ, runMinGo]
      by_cases hc : close i < bp <;> simp [hc, hrm]
    · simp only [hh, Bool.false_eq_true, if_false] at h ⊢
      have hb := terminationDay_bounds close atr m (i + 1) T h
      rw [ih (i + 1) _ _ T h]
      have hs : T + 1 - i = (T + 1 - (i + 1)) + 1 := by omega
      rw [hs, runMinGo_succ]
      by_cases hc : close i < bp <;> simp [hc]

/-- The running minimum never exceeds its initial value. -/
theorem runMinGo_fst_le :
    ∀ m i bp bi, (runMinGo close i m (bp, bi)).1 ≤ bp := by
  intro m
  induction m with
  | zero => intro i bp bi; rw [runMinGo]
  | succ m ih =>
    intro i bp bi
    rw [runMinGo_succ]
    by_cases hc : close i < bp
    · simp only [hc, if_true]
      exact le_of_lt (lt_of_le_of_lt (ih (i + 1) _ _) hc)
    · simp only [hc, if_false]
      exact ih (i + 1) _ _

/-- The running minimum drops strictly below its initial value exactly when
some scanned day closes strictly below it. -/
theorem runMinGo_lt_iff :
    ∀ m i bp bi, (runMinGo close i m (bp, bi)).1 < bp ↔
      ∃ j, i ≤ j ∧ j < i + m ∧ close j < bp := by
  intro m
  induction m with
  | zero =>
    intro i bp bi
    rw [runMinGo]
    constructor
    · intro h; exact absurd h (lt_irrefl bp)
    · rintro ⟨j, h1, h2, _⟩; omega
  | succ m ih =>
    intro i bp bi
    rw [runMinGo_succ]
    by_cases hc : close i < bp
    · simp only [hc, if_true]
      constructor
      · intro _; exact ⟨i, le_refl i, by omega, hc⟩
      · intro _; exact lt_of_le_of_lt (runMinGo_fst_le close m (i + 1) _ _) hc
    · simp only [hc, if_false]
      rw [ih (i + 1)]
      constructor
      · rintro ⟨j, h1, h2, h3⟩; exact ⟨j, by omega, by omega, h3⟩
      · rintro ⟨j, h1, h2, h3⟩
        refine ⟨j, ?_, by omega, h3⟩
        rcases Nat.eq_or_lt_of_le h1 with rfl | h
        · exact absurd h3 hc
        · omega

/-- Full invariant of the running-minimum fold, relative to a base index
`high`: starting from a state whose price is attained at its index and is a
strict running minimum of the days already seen, the fold returns the
minimum over all seen days, attained earliest at the returned index. -/
theorem runMinGo_spec (high : ℕ) :
    ∀ m lo bp bi, close bi = bp → high ≤ bi → bi < lo →
      (∀ j, high ≤ j → j < lo → bp ≤ close j) →
      (∀ j, high ≤ j → j < bi → bp < close j) →
      (close (runMinGo close lo m (bp, bi)).2 = (runMinGo close lo m (bp, bi)).1 ∧
        high ≤ (runMinGo close lo m (bp, bi)).2 ∧
        (runMinGo close lo m (bp, bi)).2 < lo + m) ∧
      (∀ j, high ≤ j → j < lo + m → (runMinGo close lo m (bp, bi)).1 ≤ close j) ∧
      (∀ j, high ≤ j → j < (runMinGo close lo m (bp, bi)).2 →
        (runMinGo close lo m (bp, bi)).1 < close j) := by
  intro m
  induction m with
  | zero =>
    intro lo bp bi hA hB1 hB2 hC hD
    rw [runMinGo]
    exact ⟨⟨hA, hB1, by omega⟩, fun j h1 h2 => hC j h1 (by omega), hD⟩
  | succ m ih =>
    intro lo bp bi hA hB1 hB2 hC hD
    rw [runMinGo_succ]
    by_cases hc : close lo < bp
    · simp only [hc, if_true]
      have := ih (lo + 1) (close lo) lo rfl (by omega) (by omega)
        (fun j h1 h2 => ?_) (fun j h1 h2 => ?_)
      · obtain ⟨⟨a1, a2, a3⟩, a4, a5⟩ := this
        exact ⟨⟨a1, a2, by omega⟩, fun j h1 h2 => a4 j h1 (by omega), a5⟩
      · rcases Nat.lt_or_ge j lo with h | h
        · exact le_of_lt (lt_of_lt_of_le hc (hC j h1 h))
        · have : j = lo := by omega
          subst this; exact le_refl _
      · exact lt_of_lt_of_le hc (hC j h1 h2)
    · simp only [hc, if_false]
      have hble : bp ≤ close lo := le_of_not_lt hc
      have := ih (lo + 1) bp bi hA hB1 (by omega)
        (fun j h1 h2 => ?_) hD
      · obtain ⟨⟨a1, a2, a3⟩, a4, a5⟩ := this
        exact ⟨⟨a1, a2, by omega⟩, fun j h1 h2 => a4 j h1 (by omega), a5⟩
      · rcases Nat.lt_or_ge j lo with h | h
        · exact hC j h1 h
        · have : j = lo := by omega
          subst this; exact hble

/-- The termination test at day `i` reads only `close` at `i-1` and `i` and
the ATR at `i`. -/
theorem hitB_congr (close' : ℕ → ℚ) (atr' : ℕ → Option ℚ) (i : ℕ)
    (hc : ∀ j, j ≤ i → close' j = close j) (ha : atr' i = atr i) :
    hitB close' atr' i = hitB close atr i := by
  have hd : dailyReturn close' i = dailyReturn close i := by
    unfold dailyReturn
    rw [hc i (le_refl i), hc (i - 1) (by omega)]
  unfold hitB
  rw [ha, hd]

/-- The first termination day is unchanged by modifying the series strictly
beyond it. -/
theorem terminationDay_congr (close' : ℕ → ℚ) (atr' : ℕ → Option ℚ) :
    ∀ m i T, terminationDay close atr i m = some T →
      (∀ j, j ≤ T → close' j = close j) → (∀ j, j ≤ T → atr' j = atr j) →
      terminationDay close' atr' i m = some T := by
  intro m
  induction m with
  | zero => intro i T h _ _; simp [terminationDay] at h
  | succ m ih =>
    intro i T h hc ha
    have hb := terminationDay_bounds close atr (m + 1) i T h
    rw [terminationDay] at h ⊢
    by_cases hh : hitB close atr i = true
    · simp only [hh, if_true] at h
      obtain rfl : i = T := by simpa using h
      rw [hitB_congr close atr close' atr' i hc (ha i (le_refl i)), hh]
      simp
    · simp only [hh, Bool.false_eq_true, if_false] at h
      have hb' := terminationDay_bounds close atr m (i + 1) T h
      rw [hitB_congr close atr close' atr' i
        (fun j hj => hc j (by omega)) (ha i (by omega))]
      simp only [hh, Bool.false_eq_true, if_false]
      exact ih (i + 1) T h hc ha

/-- The running-minimum fold reads only `close` on the scanned days. -/
theorem runMinGo_congr (close' : ℕ → ℚ) :
    ∀ m i s, (∀ j, i ≤ j → j < i + m → close' j = close j) →
      runMinGo close' i m s = runMinGo close i m s := by
  intro m
  induction m with
  | zero => intro i s _; rw [runMinGo, runMinGo]
  | succ m ih =>
    intro i s h
    obtain ⟨bp, bi⟩ := s
    rw [runMinGo_succ, runMinGo_succ, h i (le_refl i) (by omega)]
    exact ih (i + 1) _ (fun j h1 h2 => h j (by omega) (by omega))

end TraceLemmas

section ScanLemmas

variable (close : ℕ → ℚ) (atr : ℕ → Option ℚ)

/-- Absent overlap, spelled out: no triggered index lies strictly between
the high and the current index. -/
theorem has_signal_between_eq_false (triggered : List ℕ) (h i : ℕ) :
    has_signal_between triggered h i = false ↔
      ∀ s ∈ triggered, ¬(h < s ∧ s < i) := by
  unfold has_signal_between
  rw [List.any_eq_false]
  constructor
  · intro H s hs hcon
    have := H s hs
    simp only [Bool.and_eq_true, decide_eq_true_eq, not_and] at this
    exact (this hcon.1) hcon.2
  · intro H s hs
    simp only [Bool.and_eq_true, decide_eq_true_eq, not_and]
    intro h1 h2
    exact H s hs ⟨h1, h2⟩

/-- An emission accepted by the candidate loop fires at the evaluation day
being scanned and passed the no-overlap check against the triggered list. -/
theorem findSignalGo_some (i : ℕ) (catr : ℚ) (triggered : List ℕ) :
    ∀ k h em, findSignalGo close atr i catr triggered h k = some em →
      em.eval_idx = i ∧ has_signal_between triggered em.high_idx i = false := by
  intro k
  induction k with
  | zero => intro h em hsome; simp [findSignalGo] at hsome
  | succ k ih =>
    intro h em hsome
    rw [findSignalGo] at hsome
    set tr := trace_decline_trend close atr h i with htr
    by_cases hv : (tr.is_valid && tr.ends_today) = true
    · simp only [hv, if_true] at hsome
      by_cases hacc : (declineHit catr ((tr.bottom_price - tr.high_price) / tr.high_price) &&
          reboundHit catr ((close i - tr.bottom_price) / tr.bottom_price) &&
          !has_signal_between triggered tr.high_idx i) = true
      · simp only [hacc, if_true, Option.some.injEq] at hsome
        subst hsome
        simp only [Bool.and_eq_true, Bool.not_eq_true'] at hacc
        exact ⟨rfl, hacc.2⟩
      · simp only [hacc, if_false, Bool.false_eq_true] at hsome
        exact ih (h + 1) em hsome
    · simp only [hv, if_false, Bool.false_eq_true] at hsome
      exact ih (h + 1) em hsome


/-- Invariant of the driving loop: the emission log stays pairwise ordered
and overlap-free, and every emission fires below the end of the scanned
range. -/
theorem scanGo_pairwise (lookback : ℕ) :
    ∀ m i log, log.Pairwise EmissionOrdered → (∀ e ∈ log, e.eval_idx < i) →
      (scanGo close atr lookback i m log).Pairwise EmissionOrdered ∧
        (∀ e ∈ scanGo close atr lookback i m log, e.eval_idx < i + m) := by
  intro m
  induction m with
  | zero =>
    intro i log hp hlt
    rw [scanGo]
    exact ⟨hp, fun e he => by have := hlt e he; omega⟩
  | succ m ih =>
    intro i log hp hlt
    rw [scanGo]
    cases hai : atr i with
    | none =>
      dsimp only
      have := ih (i + 1) log hp (fun e he => by have := hlt e he; omega)
      exact ⟨this.1, fun e he => by have := this.2 e he; omega⟩
    | some catr =>
      dsimp only
      cases hfind : findSignalGo close atr i catr (log.map (·.eval_idx))
          (i - lookback) (i - (i - lookback)) with
      | none =>
        have := ih (i + 1) log hp (fun e he => by have := hlt e he; omega)
        exact ⟨this.1, fun e he => by have := this.2 e he; omega⟩
      | some em =>
        obtain ⟨hem_eval, hem_ov⟩ := findSignalGo_some close atr i catr
          (log.map (·.eval_idx)) _ _ em hfind
        have hov := (has_signal_between_eq_false (log.map (·.eval_idx))
          em.high_idx i).mp hem_ov
        have hp' : (log ++ [em]).Pairwise EmissionOrdered := by
          rw [List.pairwise_append]
          refine ⟨hp, List.pairwise_singleton _ _, ?_⟩
          intro e1 he1 e2 he2
          have he2' : e2 = em := by simpa using he2
          subst he2'
          constructor
          · rw [hem_eval]; exact hlt e1 he1
          · rw [hem_eval]
            exact hov e1.eval_idx (List.mem_map_of_mem (·.eval_idx) he1)
        have hlt' : ∀ e ∈ log ++ [em], e.eval_idx < i + 1 := by
          intro e he
          rcases List.mem_append.mp he with h | h
          · have := hlt e h; omega
          · have : e = em := by simpa using h
            subst this; omega
        have := ih (i + 1) (log ++ [em]) hp' hlt'
        exact ⟨this.1, fun e he => by have := this.2 e he; omega⟩

/-- Every emission of the scan either was already in the log or fires at a
day of the scanned range whose ATR is present. -/
theorem scanGo_mem (lookback : ℕ) :
    ∀ m i log e, e ∈ scanGo close atr lookback i m log →
      e ∈ log ∨ (i ≤ e.eval_idx ∧ e.eval_idx < i + m ∧ atr e.eval_idx ≠ none) := by
  intro m
  induction m with
  | zero =>
    intro i log e he
    rw [scanGo] at he
    exact Or.inl he
  | succ m ih =>
    intro i log e he
    rw [scanGo] at he
    cases hai : atr i with
    | none =>
      simp only [hai] at he
      rcases ih (i + 1) log e he with h | h
      · exact Or.inl h
      · exact Or.inr ⟨by omega, by omega, h.2.2⟩
    | some catr =>
      simp only [hai] at he
      cases hfind : findSignalGo close atr i catr (log.map (·.eval_idx))
          (i - lookback) (i - (i - lookback)) with
      | none =>
        simp only [hfind] at he
        rcases ih (i + 1) log e he with h | h
        · exact Or.inl h
        · exact Or.inr ⟨by omega, by omega, h.2.2⟩
      | some em =>
        simp only [hfind] at he
        rcases ih (i + 1) (log ++ [em]) e he with h | h
        · rcases List.mem_append.mp h with h' | h'
          · exact Or.inl h'
          · have heq : e = em := by simpa using h'
            obtain ⟨hem_eval, _⟩ := findSignalGo_some close atr i catr
              (log.map (·.eval_idx)) _ _ em hfind
            rw [heq, hem_eval]
            refine Or.inr ⟨le_refl i, by omega, ?_⟩
            rw [hai]
            simp
        · exact Or.inr ⟨by omega, by omega, h.2.2⟩

end ScanLemmas

/-- Rational and real readings of the 1% band edge agree. -/
theorem cast_band_low : ((0.01 : ℚ) : ℝ) = (0.01 : ℝ) := by norm_num

/-- Rational and real readings of the 2% band edge agree. -/
theorem cast_band_high : ((0.02 : ℚ) : ℝ) = (0.02 : ℝ) := by norm_num

/-- The real correction factor of a rational ATR is the square root of
`corrSq`. -/
theorem get_atr_correction_factor_eq_sqrt (a : ℚ) :
    get_atr_correction_factor (a : ℝ) = Real.sqrt ((corrSq a : ℚ) : ℝ) := by
  unfold get_atr_correction_factor corrSq
  rw [← cast_band_low, ← cast_band_high]
  by_cases h1 : a < 0.01
  · rw [if_pos h1, if_pos (by exact_mod_cast h1)]
    norm_cast
  · rw [if_neg h1, if_neg (by exact_mod_cast h1)]
    by_cases h2 : a > 0.02
    · rw [if_pos h2, if_pos (by exact_mod_cast h2)]
      norm_cast
    · rw [if_neg h2, if_neg (by exact_mod_cast h2)]
      simp [Real.sqrt_one]

/-- The square of the correction factor is nonnegative on nonnegative
ATR values. -/
theorem corrSq_nonneg (a : ℚ) (ha : 0 ≤ a) : 0 ≤ corrSq a := by
  unfold corrSq
  by_cases h1 : a < 0.01
  · rw [if_pos h1]; positivity
  · rw [if_neg h1]
    by_cases h2 : a > 0.02
    · rw [if_pos h2]; positivity
    · rw [if_neg h2]; norm_num

/-- Comparing against a scaled square root is equivalent to comparing the
squares, on the nonnegative side. -/
theorem mul_sqrt_le_iff_sq_le (b c x : ℝ) (hb : 0 ≤ b) (hc : 0 ≤ c) :
    b * Real.sqrt c ≤ x ↔ 0 ≤ x ∧ b ^ 2 * c ≤ x ^ 2 := by
  have hbs : 0 ≤ b * Real.sqrt c := mul_nonneg hb (Real.sqrt_nonneg c)
  constructor
  · intro h
    have hx : 0 ≤ x := le_trans hbs h
    refine ⟨hx, ?_⟩
    have hsq := mul_self_le_mul_self hbs h
    calc b ^ 2 * c = (b * b) * (Real.sqrt c * Real.sqrt c) := by
          rw [Real.mul_self_sqrt hc]; ring
      _ = (b * Real.sqrt c) * (b * Real.sqrt c) := by ring
      _ ≤ x * x := hsq
      _ = x ^ 2 := by ring
  · rintro ⟨hx, h⟩
    have h1 : Real.sqrt (b ^ 2 * c) ≤ Real.sqrt (x ^ 2) := Real.sqrt_le_sqrt h
    rwa [Real.sqrt_mul (sq_nonneg b), Real.sqrt_sq hb, Real.sqrt_sq hx] at h1

/-- Bridge between the decidable rebound test used by the embedding and the
source comparison `daily_return >= rebound_threshold` over the reals. -/
theorem reboundHit_iff_real (a r : ℚ) (ha : 0 ≤ a) :
    reboundHit a r = true ↔ (get_adjusted_thresholds (a : ℝ)).2 ≤ (r : ℝ) := by
  unfold reboundHit get_adjusted_thresholds
  rw [get_atr_correction_factor_eq_sqrt,
    show ((0.005 : ℝ)) = ((0.005 : ℚ) : ℝ) by norm_num,
    mul_sqrt_le_iff_sq_le _ _ _ (by positivity)
      (by exact_mod_cast corrSq_nonneg a ha)]
  simp only [Bool.and_eq_true, decide_eq_true_eq]
  constructor
  · rintro ⟨h1, h2⟩
    exact ⟨by exact_mod_cast h1, by exact_mod_cast h2⟩
  · rintro ⟨h1, h2⟩
    exact ⟨by exact_mod_cast h1, by exact_mod_cast h2⟩

/-- Bridge between the decidable decline test used by the embedding and the
source comparison `total_decline <= decline_threshold` over the reals. -/
theorem declineHit_iff_real (a t : ℚ) (ha : 0 ≤ a) :
    declineHit a t = true ↔ (t : ℝ) ≤ (get_adjusted_thresholds (a : ℝ)).1 := by
  unfold declineHit get_adjusted_thresholds
  rw [get_atr_correction_factor_eq_sqrt]
  have key : (t : ℝ) ≤ -0.05 * Real.sqrt ((corrSq a : ℚ) : ℝ) ↔
      ((0.05 : ℚ) : ℝ) * Real.sqrt ((corrSq a : ℚ) : ℝ) ≤ ((-t : ℚ) : ℝ) := by
    rw [show (((0.05 : ℚ)) : ℝ) = (0.05 : ℝ) by norm_num]
    push_cast
    constructor
    · intro h; linarith
    · intro h; linarith
  rw [key, mul_sqrt_le_iff_sq_le _ _ _ (by positivity)
    (by exact_mod_cast corrSq_nonneg a ha)]
  simp only [Bool.and_eq_true, decide_eq_true_eq]
  have hneg : ((0.05 : ℚ)) ^ 2 * corrSq a ≤ (-t) ^ 2 ↔
      (0.05 : ℚ) ^ 2 * corrSq a ≤ t ^ 2 := by
    rw [show ((-t : ℚ)) ^ 2 = t ^ 2 by ring]
  constructor
  · rintro ⟨h1, h2⟩
    refine ⟨by exact_mod_cast neg_nonneg.mpr h1, ?_⟩
    exact_mod_cast hneg.mpr h2
  · rintro ⟨h1, h2⟩
    have h1' : (0 : ℚ) ≤ -t := by exact_mod_cast h1
    refine ⟨by linarith, ?_⟩
    exact hneg.mp (by exact_mod_cast h2)


section DuplicateEquality

/-- The spec-modelled squared correction factor of the metrics module agrees
with the one of `backtest/indicators.py`. -/
theorem s1_corrSq_eq : Strategy1Definitions.corrSq = corrSq := rfl

/-- The two rebound tests agree. -/
theorem s1_reboundHit_eq : Strategy1Definitions.reboundHit = reboundHit := rfl

/-- The two decline tests agree. -/
theorem s1_declineHit_eq : Strategy1Definitions.declineHit = declineHit := rfl

/-- The two termination tests agree. -/
theorem s1_hitB_eq : Strategy1Definitions.hitB = hitB := by
  funext close atr i
  unfold Strategy1Definitions.hitB hitB
  cases atr i with
  | none => rfl
  | some a => rw [s1_reboundHit_eq]

/-- The two trace loops agree. -/
theorem s1_traceGo_eq (close : ℕ → ℚ) (atr : ℕ → Option ℚ) (hp : ℚ)
    (hi cur : ℕ) : ∀ m i bp bi,
    Strategy1Definitions.traceGo close atr hp hi cur i m bp bi =
      traceGo close atr hp hi cur i m bp bi := by
  intro m
  induction m with
  | zero =>
    intro i bp bi
    rw [Strategy1Definitions.traceGo, traceGo]
  | succ m ih =>
    intro i bp bi
    rw [Strategy1Definitions.traceGo, traceGo, s1_hitB_eq, ih]

/-- The two `_trace_decline_trend` implementations agree. -/
theorem s1_trace_decline_trend_eq :
    Strategy1Definitions.trace_decline_trend = trace_decline_trend := by
  funext close atr high_idx current_idx
  unfold Strategy1Definitions.trace_decline_trend trace_decline_trend
  rw [s1_traceGo_eq]

/-- The two `_has_signal_between` implementations agree. -/
theorem s1_has_signal_between_eq :
    Strategy1Definitions.has_signal_between = has_signal_between := rfl

/-- The two candidate loops agree. -/
theorem s1_findSignalGo_eq (close : ℕ → ℚ) (atr : ℕ → Option ℚ) (i : ℕ)
    (catr : ℚ) (triggered : List ℕ) : ∀ k h,
    Strategy1Definitions.findSignalGo close atr i catr triggered h k =
      findSignalGo close atr i catr triggered h k := by
  intro k
  induction k with
  | zero =>
    intro h
    rw [Strategy1Definitions.findSignalGo, findSignalGo]
  | succ k ih =>
    intro h
    rw [Strategy1Definitions.findSignalGo, findSignalGo,
      s1_trace_decline_trend_eq, s1_declineHit_eq, s1_reboundHit_eq,
      s1_has_signal_between_eq, ih]

/-- The two driving loops agree. -/
theorem s1_scanGo_eq (close : ℕ → ℚ) (atr : ℕ → Option ℚ) (lookback : ℕ) :
    ∀ m i log,
    Strategy1Definitions.scanGo close atr lookback i m log =
      scanGo close atr lookback i m log := by
  intro m
  induction m with
  | zero =>
    intro i log
    rw [Strategy1Definitions.scanGo, scanGo]
  | succ m ih =>
    intro i log
    rw [Strategy1Definitions.scanGo, scanGo]
    cases atr i with
    | none => exact ih (i + 1) log
    | some catr =>
      dsimp only
      rw [s1_findSignalGo_eq]
      cases findSignalGo close atr i catr (log.map (·.eval_idx))
          (i - lookback) (i - (i - lookback)) with
      | none => exact ih (i + 1) log
      | some em => exact ih (i + 1) (log ++ [em])

end DuplicateEquality


/-- C1: no-overlap invariant of the emitted signal log: for every input
series and lookback window and any two emissions with the first at a
strictly earlier evaluation index, the earlier emission's evaluation index
does not lie strictly between the later emission's accepted candidate high
index and its evaluation index. -/
theorem no_overlap_invariant (close : ℕ → ℚ) (atr : ℕ → Option ℚ)
    (n lookback : ℕ) (e1 e2 : Emission)
    (h1 : e1 ∈ signalLog close atr n lookback)
    (h2 : e2 ∈ signalLog close atr n lookback)
    (hlt : e1.eval_idx < e2.eval_idx) :
    ¬(e2.high_idx < e1.eval_idx ∧ e1.eval_idx < e2.eval_idx) := by
  unfold signalLog at h1 h2
  have hp := (scanGo_pairwise close atr lookback (n - lookback) lookback []
    List.Pairwise.nil (by intro e he; exact absurd he (List.not_mem_nil e))).1
  have hS : (scanGo close atr lookback lookback (n - lookback) []).Pairwise
      (fun a b => EmissionOrdered a b ∨ EmissionOrdered b a) :=
    hp.imp Or.inl
  have hsym : Symmetric (fun a b : Emission =>
      EmissionOrdered a b ∨ EmissionOrdered b a) := fun a b h => h.symm
  have hne : e1 ≠ e2 := by
    intro h
    rw [h] at hlt
    exact lt_irrefl _ hlt
  rcases hS.forall hsym h1 h2 hne with h | h
  · exact h.2
  · exact absurd h.1 (not_lt_of_lt hlt)

/-- Witness for C1 on a concrete series emitting two signals. -/
theorem no_overlap_invariant_witness :
    (⟨4, 0⟩ : Emission) ∈ signalLog closeExample10 atrExampleConst 10 4 ∧
    (⟨9, 5⟩ : Emission) ∈ signalLog closeExample10 atrExampleConst 10 4 ∧
    ¬((5 : ℕ) < 4 ∧ (4 : ℕ) < 9) :=
  ⟨by decide, by decide,
    no_overlap_invariant closeExample10 atrExampleConst 10 4 ⟨4, 0⟩ ⟨9, 5⟩
      (by decide) (by decide) (by decide)⟩

/-- C9: an evaluation day whose effective ATR entry is missing produces no
signal: whenever `generate_signals` succeeds, the output at such a day is
`false` (the day is skipped, not an error). -/
theorem undefined_atr_no_signal (data : DataFrame) (lb t : ℕ)
    (cS : List ℚ) (atrS : List (Option ℚ)) (sigs : List Bool)
    (hc : data.close = some cS)
    (ha : effAtr data = Except.ok atrS)
    (hna : atrS.getD t none = none)
    (hok : generate_signals data lb = Except.ok sigs) :
    sigs.getD t false = false := by
  unfold generate_signals at hok
  cases hh : data.high with
  | none => rw [hh] at hok; exact absurd hok (by simp)
  | some hS =>
    cases hl : data.low with
    | none => rw [hh, hl] at hok; exact absurd hok (by simp)
    | some lS =>
      rw [hh, hl, hc, ha] at hok
      simp only [Except.map, Except.ok.injEq] at hok
      subst hok
      unfold signalsFromSeries signalsFromLog
      by_cases ht : t < cS.length
      · rw [List.getD_eq_getElem _ _ (by simpa using ht)]
        simp only [List.getElem_map, List.getElem_range]
        rw [List.any_eq_false]
        intro e he
        unfold signalLog at he
        rcases scanGo_mem (fun i => cS.getD i 0) (fun i => atrS.getD i none)
          lb (cS.length - lb) lb [] e he with h | h
        · exact absurd h (List.not_mem_nil e)
        · have hne : e.eval_idx ≠ t := by
            intro hEq
            rw [hEq] at h
            exact h.2.2 hna
          simpa using hne
      · rw [List.getD_eq_default]
        simpa using le_of_not_lt ht

/-- Witness for C9 on a concrete frame with a missing ATR entry. -/
theorem undefined_atr_no_signal_witness :
    effAtr ⟨some [1, 1, 1], some [1, 1, 1], some [1, 1, 1],
        some [some 1, none, none]⟩ = Except.ok [some 1, none, none] ∧
    ([some (1 : ℚ), none, none].getD 2 none = none) ∧
    generate_signals ⟨some [1, 1, 1], some [1, 1, 1], some [1, 1, 1],
        some [some 1, none, none]⟩ 1 = Except.ok [false, false, false] ∧
    [false, false, false].getD 2 false = false :=
  ⟨rfl, rfl, rfl,
    undefined_atr_no_signal
      ⟨some [1, 1, 1], some [1, 1, 1], some [1, 1, 1], some [some 1, none, none]⟩
      1 2 [1, 1, 1] [some 1, none, none] [false, false, false] rfl rfl rfl rfl⟩

/-- C2 (amended): for `high < cur`, if the scan over `(high, cur]` has a
first termination day `T` (ATR present and daily return at least that day's
rebound threshold), then `_trace_decline_trend` never examines days after
`T` (its result is insensitive to the series beyond `T`), and it reports
`ends_today = true` iff `T = cur` AND some day in `(high, T]` closed
strictly below the candidate high (the source invalidates trends with no
actual decline, returning `ends_today = false` even when `T = cur`); if no
termination day exists, the all-zero invalid record is returned. -/
theorem trace_termination_day (close : ℕ → ℚ) (atr : ℕ → Option ℚ)
    (high cur : ℕ) (hlt : high < cur) (hpos : 0 < close high) :
    (∀ T, terminationDay close atr (high + 1) (cur - high) = some T →
      ((∀ close' atr', (∀ j, j ≤ T → close' j = close j) →
          (∀ j, j ≤ T → atr' j = atr j) →
          trace_decline_trend close' atr' high cur =
            trace_decline_trend close atr high cur) ∧
        ((trace_decline_trend close atr high cur).ends_today = true ↔
          (T = cur ∧ ∃ j, high < j ∧ j ≤ T ∧ close j < close high)))) ∧
    (terminationDay close atr (high + 1) (cur - high) = none →
      trace_decline_trend close atr high cur = ⟨false, false, 0, 0, 0, 0⟩) := by
  constructor
  · intro T hT
    have hb := terminationDay_bounds close atr (cur - high) (high + 1) T hT
    constructor
    · intro close' atr' hcc hac
      have hpe : close' high = close high := hcc high (by omega)
      have hT' : terminationDay close' atr' (high + 1) (cur - high) = some T :=
        terminationDay_congr close atr close' atr' (cur - high) (high + 1) T hT hcc hac
      unfold trace_decline_trend
      rw [if_neg (show ¬cur ≤ high by omega), if_neg (show ¬cur ≤ high by omega)]
      rw [traceGo_stop close' atr' (close' high) high cur (cur - high) (high + 1)
        (close' high) high T hT']
      rw [traceGo_stop close atr (close high) high cur (cur - high) (high + 1)
        (close high) high T hT]
      rw [hpe]
      rw [runMinGo_congr close close' (T + 1 - (high + 1)) (high + 1)
        (close high, high) (fun j hj1 hj2 => hcc j (by omega))]
    · unfold trace_decline_trend
      rw [if_neg (show ¬cur ≤ high by omega)]
      rw [traceGo_stop close atr (close high) high cur (cur - high) (high + 1)
        (close high) high T hT]
      dsimp only
      have hkey : (0 ≤ ((runMinGo close (high + 1) (T + 1 - (high + 1))
          (close high, high)).1 - close high) / close high) ↔
          close high ≤ (runMinGo close (high + 1) (T + 1 - (high + 1))
            (close high, high)).1 := by
        rw [le_div_iff₀ hpos, zero_mul, sub_nonneg]
      have hlt_iff : (runMinGo close (high + 1) (T + 1 - (high + 1))
          (close high, high)).1 < close high ↔
          ∃ j, high < j ∧ j ≤ T ∧ close j < close high := by
        rw [runMinGo_lt_iff]
        constructor
        · rintro ⟨j, hj1, hj2, hj3⟩
          exact ⟨j, by omega, by omega, hj3⟩
        · rintro ⟨j, hj1, hj2, hj3⟩
          exact ⟨j, by omega, by omega, hj3⟩
      by_cases hcase : 0 ≤ ((runMinGo close (high + 1) (T + 1 - (high + 1))
          (close high, high)).1 - close high) / close high
      · rw [if_pos hcase]
        constructor
        · intro h; exact absurd h (by simp)
        · rintro ⟨hTc, j, hj1, hj2, hj3⟩
          have h1 := hlt_iff.mpr ⟨j, hj1, hj2, hj3⟩
          exact absurd h1 (not_lt_of_le (hkey.mp hcase))
      · rw [if_neg hcase]
        have hex : ∃ j, high < j ∧ j ≤ T ∧ close j < close high :=
          hlt_iff.mp (lt_of_not_ge fun hge => hcase (hkey.mpr hge))
        show (T == cur) = true ↔ _
        rw [beq_iff_eq]
        constructor
        · intro h; exact ⟨h, hex⟩
        · rintro ⟨h, _⟩; exact h
  · intro h
    unfold trace_decline_trend
    rw [if_neg (show ¬cur ≤ high by omega)]
    exact traceGo_exhaust close atr (close high) high cur (cur - high) (high + 1)
      (close high) high h

/-- Witness for C2 (amended) on the end-to-end example pair `(0, 4)`. -/
theorem trace_termination_day_witness :
    (0 : ℕ) < 4 ∧ (0 : ℚ) < closeExample6 0 ∧
    terminationDay closeExample6 atrExampleConst 1 4 = some 4 ∧
    ((trace_decline_trend closeExample6 atrExampleConst 0 4).ends_today = true ↔
      ((4 : ℕ) = 4 ∧ ∃ j, 0 < j ∧ j ≤ 4 ∧ closeExample6 j < closeExample6 0)) :=
  ⟨by norm_num, by decide, by decide,
    ((trace_termination_day closeExample6 atrExampleConst 0 4 (by norm_num)
      (by decide)).1 4 (by decide)).2⟩

/-- Counterexample to C2 as stated: on a strictly rising pair the first
termination day equals the evaluation day, yet `ends_today` is `false`,
because the source additionally requires an actual decline. -/
theorem trace_termination_day_counterexample :
    terminationDay (fun i => if i = 0 then (100 : ℚ) else 101)
      (fun _ => some 0.015) 1 1 = some 1 ∧
    (trace_decline_trend (fun i => if i = 0 then (100 : ℚ) else 101)
      (fun _ => some 0.015) 0 1).ends_today = false := by
  constructor
  · decide
  · decide

/-- C10: when the trace is valid with first termination day `T`, the
returned `bottom_price` is the minimum close over `[high, T]`, attained at
`bottom_idx`, which is the earliest index attaining it (ties resolve to the
earliest day because the update uses strict less-than). -/
theorem trace_bottom_running_min (close : ℕ → ℚ) (atr : ℕ → Option ℚ)
    (high cur T : ℕ) (hlt : high < cur)
    (hT : terminationDay close atr (high + 1) (cur - high) = some T)
    (hv : (trace_decline_trend close atr high cur).is_valid = true) :
    close (trace_decline_trend close atr high cur).bottom_idx =
        (trace_decline_trend close atr high cur).bottom_price ∧
    high ≤ (trace_decline_trend close atr high cur).bottom_idx ∧
    (trace_decline_trend close atr high cur).bottom_idx ≤ T ∧
    (∀ j, high ≤ j → j ≤ T →
      (trace_decline_trend close atr high cur).bottom_price ≤ close j) ∧
    (∀ j, high ≤ j → j < (trace_decline_trend close atr high cur).bottom_idx →
      (trace_decline_trend close atr high cur).bottom_price < close j) := by
  have hb := terminationDay_bounds close atr (cur - high) (high + 1) T hT
  have hstop := traceGo_stop close atr (close high) high cur (cur - high)
    (high + 1) (close high) high T hT
  unfold trace_decline_trend at hv ⊢
  rw [if_neg (show ¬cur ≤ high by omega)] at hv ⊢
  rw [hstop] at hv ⊢
  dsimp only at hv ⊢
  by_cases hcase : 0 ≤ ((runMinGo close (high + 1) (T + 1 - (high + 1))
      (close high, high)).1 - close high) / close high
  · rw [if_pos hcase] at hv
    exact absurd hv (by simp)
  · rw [if_neg hcase] at hv ⊢
    dsimp only
    have hspec := runMinGo_spec close high (T + 1 - (high + 1)) (high + 1)
      (close high) high rfl (le_refl high) (by omega)
      (fun j h1 h2 => by
        have hj : j = high := by omega
        rw [hj])
      (fun j h1 h2 => absurd h2 (by omega))
    obtain ⟨⟨a1, a2, a3⟩, a4, a5⟩ := hspec
    exact ⟨a1, a2, by omega, fun j h1 h2 => a4 j h1 (by omega), a5⟩

/-- Witness for C10 on the end-to-end example pair `(0, 4)`. -/
theorem trace_bottom_running_min_witness :
    (0 : ℕ) < 4 ∧
    terminationDay closeExample6 atrExampleConst 1 4 = some 4 ∧
    (trace_decline_trend closeExample6 atrExampleConst 0 4).is_valid = true ∧
    (trace_decline_trend closeExample6 atrExampleConst 0 4).bottom_price ≤
      closeExample6 2 :=
  ⟨by norm_num, by decide, by decide,
    (trace_bottom_running_min closeExample6 atrExampleConst 0 4 4 (by norm_num)
      (by decide) (by decide)).2.2.2.1 2 (by norm_num) (by norm_num)⟩

/-- C4: end-to-end example: on close path `[100, 99, 98, 90, 91, 95]` with
constant ATR 0.015 (correction factor 1, thresholds −5% and 0.5%) and
`lookback_days = 4`, the trend from the peak at index 0 bottoms at 90
(index 3) and terminates at index 4, and the detector emits a signal at
index 4 and not at index 5. -/
theorem end_to_end_example :
    get_adjusted_thresholds 0.015 = (-0.05, 0.005) ∧
    trace_decline_trend closeExample6 atrExampleConst 0 4 =
      ⟨true, true, 90, 3, 100, 0⟩ ∧
    generate_signals
      ⟨some [100, 99, 98, 90, 91, 95], some [100, 99, 98, 90, 91, 95],
        some [100, 99, 98, 90, 91, 95], some (List.replicate 6 (some 0.015))⟩ 4 =
      Except.ok [false, false, false, false, true, false] := by
  refine ⟨?_, by decide, rfl⟩
  unfold get_adjusted_thresholds get_atr_correction_factor
  norm_num

/-- C5 (amended): for equal-length inputs of length at least `window ≥ 1`,
the relative ATR is undefined for exactly the first `window - 1` output
positions and defined from position `window - 1` onward (the true range is
already defined on day 0, where the row maximum skips the two `NaN`
candidates). -/
theorem calculate_atr_defined_positions (high low close : List ℚ)
    (window : ℕ) (hw : 1 ≤ window) (hl : high.length = low.length)
    (hc : high.length = close.length) (hlen : window ≤ close.length) :
    ∃ atrS, calculate_atr high low close window = Except.ok atrS ∧
      atrS.length = close.length ∧
      ∀ i, i < close.length → (atrS.getD i none = none ↔ i + 1 < window) := by
  unfold calculate_atr calculate_true_range
  rw [if_pos ⟨hl, hc⟩]
  simp only [Except.map]
  refine ⟨_, rfl, by simp [hc], ?_⟩
  intro i hi
  rw [List.getD_eq_getElem _ _ (by simp [hc]; exact hi)]
  simp only [List.getElem_map, List.getElem_range]
  by_cases hwi : window ≤ i + 1
  · rw [if_pos hwi]
    simp
    omega
  · rw [if_neg hwi]
    simp
    omega

/-- Witness for C5 (amended) at `window = 2` on a length-2 series. -/
theorem calculate_atr_defined_positions_witness :
    ∃ atrS, calculate_atr [1, 1] [1, 1] [1, 1] 2 = Except.ok atrS ∧
      atrS.length = 2 ∧
      ∀ i, i < 2 → (atrS.getD i none = none ↔ i + 1 < 2) :=
  calculate_atr_defined_positions [1, 1] [1, 1] [1, 1] 2 (by norm_num) rfl rfl
    (by norm_num)

/-- Counterexample to C5 as stated: with `window = 2`, output position 1
(the second of the "first `window`" positions, which the claim says are all
undefined) is defined. -/
theorem calculate_atr_defined_positions_counterexample :
    calculate_atr [1, 1] [1, 1] [1, 1] 2 = Except.ok [none, some 0] ∧
    (([none, some 0] : List (Option ℚ)).getD 1 none ≠ none) :=
  ⟨rfl, by decide⟩

/-- C6 (amended): a missing required price column makes `generate_signals`
error out before any scanning, as does a length mismatch when the ATR must
be computed; but when all columns are present the detector always succeeds —
in particular non-positive prices are not validated. -/
theorem fail_fast_validation (data : DataFrame) (lb : ℕ) :
    ((data.high = none ∨ data.low = none ∨ data.close = none) →
      ∃ e, generate_signals data lb = Except.error e) ∧
    (∀ hS lS cS, data.high = some hS → data.low = some lS →
      data.close = some cS → data.atr60 = none →
      ¬(hS.length = lS.length ∧ hS.length = cS.length) →
      ∃ e, generate_signals data lb = Except.error e) ∧
    (∀ hS lS cS aS, data.high = some hS → data.low = some lS →
      data.close = some cS → data.atr60 = some aS →
      generate_signals data lb = Except.ok (signalsFromSeries cS aS lb)) := by
  refine ⟨?_, ?_, ?_⟩
  · intro h
    unfold generate_signals
    cases hh : data.high with
    | none => exact ⟨_, by cases data.low <;> cases data.close <;> rfl⟩
    | some hS =>
      cases hl : data.low with
      | none => exact ⟨_, by cases data.close <;> rfl⟩
      | some lS =>
        cases hc : data.close with
        | none => exact ⟨_, rfl⟩
        | some cS =>
          rcases h with h | h | h
          · rw [hh] at h; exact absurd h (by simp)
          · rw [hl] at h; exact absurd h (by simp)
          · rw [hc] at h; exact absurd h (by simp)
  · intro hS lS cS hh hl hc ha hne
    refine ⟨"price series lengths must be equal", ?_⟩
    unfold generate_signals effAtr calculate_atr calculate_true_range
    rw [hh, hl, hc, ha]
    dsimp only
    rw [if_neg hne]
    rfl
  · intro hS lS cS aS hh hl hc ha
    unfold generate_signals effAtr
    rw [hh, hl, hc, ha]
    rfl

/-- Witness for C6 (amended) on a frame with a missing `high` column. -/
theorem fail_fast_validation_witness :
    ∃ e, generate_signals ⟨none, some [], some [], none⟩ 20 = Except.error e :=
  (fail_fast_validation ⟨none, some [], some [], none⟩ 20).1 (Or.inl rfl)

/-- Counterexample to C6 as stated: a frame whose close contains the
non-positive price −50 is scanned without any error. -/
theorem nonpositive_price_not_validated :
    generate_signals ⟨some [100, -50], some [100, -50], some [100, -50],
      some [some 0.015, some 0.015]⟩ 1 = Except.ok [false, false] := rfl

/-- C7: the correction factor is `sqrt(atr/0.01)` below the 1% band edge,
`sqrt(atr/0.02)` above the 2% band edge, and 1 inside the band; in
particular it is 1 at both edges, `sqrt(0.5)` at 0.005 and `sqrt(1.5)` at
0.03. -/
theorem correction_factor_piecewise (atr : ℝ) (h : 0 ≤ atr) :
    (atr < 0.01 → get_atr_correction_factor atr = Real.sqrt (atr / 0.01)) ∧
    (atr > 0.02 → get_atr_correction_factor atr = Real.sqrt (atr / 0.02)) ∧
    (0.01 ≤ atr → atr ≤ 0.02 → get_atr_correction_factor atr = 1) ∧
    get_atr_correction_factor 0.01 = 1 ∧
    get_atr_correction_factor 0.02 = 1 ∧
    get_atr_correction_factor 0.005 = Real.sqrt 0.5 ∧
    get_atr_correction_factor 0.03 = Real.sqrt 1.5 := by
  unfold get_atr_correction_factor
  refine ⟨?_, ?_, ?_, ?_, ?_, ?_, ?_⟩
  · intro h1
    rw [if_pos h1]
  · intro h2
    rw [if_neg (by linarith), if_pos h2]
  · intro h1 h2
    rw [if_neg (by linarith), if_neg (by linarith)]
  · norm_num
  · norm_num
  · rw [if_pos (by norm_num)]
    norm_num
  · rw [if_neg (by norm_num), if_pos (by norm_num)]
    norm_num

/-- Witness for C7 at the concrete value 0.005. -/
theorem correction_factor_piecewise_witness :
    (0 : ℝ) ≤ 0.005 ∧ get_atr_correction_factor 0.005 = Real.sqrt 0.5 :=
  ⟨by norm_num, (correction_factor_piecewise 0.005 (by norm_num)).2.2.2.2.2.1⟩

/-- C8 (amended): on every defined ATR value the elementwise form on a
one-element series agrees exactly with the scalar form; an undefined input
propagates as undefined through the elementwise form, but the scalar form
maps it to 1.0 (both comparisons are false on `NaN`, so the final `else`
branch fires). -/
theorem correction_factor_scalar_series (a : ℚ) :
    get_atr_correction_factor_series [some a] =
      [get_atr_correction_factor_scalar (some a)] ∧
    get_atr_correction_factor_series [none] = [none] ∧
    get_atr_correction_factor_scalar none = some 1 :=
  ⟨rfl, rfl, rfl⟩

/-- Counterexample to C8 as stated: on the undefined input the elementwise
form keeps the entry undefined while the scalar form returns 1.0, so the
two forms disagree and the scalar form does not propagate undefined. -/
theorem correction_factor_scalar_series_counterexample :
    get_atr_correction_factor_series [none] = [none] ∧
    get_atr_correction_factor_scalar none = some 1 ∧
    get_atr_correction_factor_series [none] ≠
      [get_atr_correction_factor_scalar none] := by
  refine ⟨rfl, rfl, ?_⟩
  simp [get_atr_correction_factor_series, get_atr_correction_factor_scalar]

/-- C3: with the `close` and `atr60` columns present (plus `high` and
`low`), the two detector implementations produce identical signal
series. -/
theorem detector_implementations_equivalent (data : DataFrame) (lb : ℕ)
    (hS lS cS : List ℚ) (aS : List (Option ℚ))
    (hh : data.high = some hS) (hl : data.low = some lS)
    (hc : data.close = some cS) (ha : data.atr60 = some aS) :
    generate_signals data lb =
      Strategy1Definitions.correct_decline_rebound_strategy data lb := by
  unfold generate_signals effAtr Strategy1Definitions.correct_decline_rebound_strategy
  rw [hh, hl, hc, ha]
  dsimp only [Except.map]
  unfold signalsFromSeries signalLog
  rw [s1_scanGo_eq]

/-- Witness for C3 on the end-to-end example frame. -/
theorem detector_implementations_equivalent_witness :
    generate_signals
      ⟨some [100, 99, 98, 90, 91, 95], some [100, 99, 98, 90, 91, 95],
        some [100, 99, 98, 90, 91, 95], some (List.replicate 6 (some 0.015))⟩ 4 =
      Strategy1Definitions.correct_decline_rebound_strategy
        ⟨some [100, 99, 98, 90, 91, 95], some [100, 99, 98, 90, 91, 95],
          some [100, 99, 98, 90, 91, 95], some (List.replicate 6 (some 0.015))⟩ 4 :=
  detector_implementations_equivalent _ 4 _ _ _ _ rfl rfl rfl rfl

/-- Witness for C8 (amended) at the concrete defined value 0.005. -/
theorem correction_factor_scalar_series_witness :
    get_atr_correction_factor_series [some 0.005] =
      [get_atr_correction_factor_scalar (some 0.005)] :=
  (correction_factor_scalar_series 0.005).1
